import Mathlib

set_option maxHeartbeats 2000000
set_option maxRecDepth 4000

/-!  Verification development for the GeekText (BGG forum markup) ↔ Markdown
converter.  The JavaScript source is embedded shallowly: strings are `List Char`
(with `String` wrappers), each regex-replace pass of the two pipelines becomes
an explicit left-to-right scanning function with the same matching semantics as
the concrete regex it embeds, and the protect/restore machinery is modelled
with an explicit token store.  The `while` loop of `protectSegments` is given
explicit fuel (the JS loop can diverge on pathological inputs; on terminating
runs the fuel below is never exhausted). -/

namespace BggMd

/-- JS `\s` whitespace class (the subset relevant to this development). -/
def isWsB (c : Char) : Bool :=
  c = ' ' || c = '\t' || c = '\n' || c = '\r' || c = '\x0b' || c = '\x0c'

/-- ASCII lower-casing, as applied by case-insensitive (`/i`) regex matching
on the ASCII tag alphabets used by the source. -/
def lowAscii (c : Char) : Char :=
  if 'A' ≤ c && c ≤ 'Z' then Char.ofNat (c.toNat + 32) else c

/-- JS `.` (dot) character class: any character except line terminators. -/
def isDotB (c : Char) : Bool :=
  !(c = '\n' || c = '\r' || c.val = 0x2028 || c.val = 0x2029)

/-- Literal (case-sensitive) prefix test. -/
def startsWithL : List Char → List Char → Bool
  | [], _ => true
  | _ :: _, [] => false
  | p :: ps, c :: cs => p = c && startsWithL ps cs

/-- Case-insensitive prefix test (for `/i` regexes). -/
def startsWithCI : List Char → List Char → Bool
  | [], _ => true
  | _ :: _, [] => false
  | p :: ps, c :: cs => lowAscii p = lowAscii c && startsWithCI ps cs

/-- Index of the first (leftmost) literal occurrence of `pat`. -/
def findSubL (pat : List Char) : List Char → Option Nat
  | [] => if pat = [] then some 0 else none
  | c :: cs =>
    if startsWithL pat (c :: cs) then some 0
    else (findSubL pat cs).map (· + 1)

/-- Index of the first (leftmost) case-insensitive occurrence of `pat`. -/
def findSubCI (pat : List Char) : List Char → Option Nat
  | [] => if pat = [] then some 0 else none
  | c :: cs =>
    if startsWithCI pat (c :: cs) then some 0
    else (findSubCI pat cs).map (· + 1)

/-- Whether `pat` occurs literally anywhere in the text. -/
def containsSubL (pat cs : List Char) : Bool :=
  (findSubL pat cs).isSome

/-- Length of the maximal run of `\s` characters at the head. -/
def wsRun (cs : List Char) : Nat :=
  (cs.takeWhile isWsB).length

/-- JS `String.prototype.trim`. -/
def trimL (cs : List Char) : List Char :=
  ((cs.dropWhile isWsB).reverse.dropWhile isWsB).reverse

/-- JS `str.replace(/^\n+|\n+$/g, "")`: strip leading/trailing newline runs. -/
def stripNlEnds (cs : List Char) : List Char :=
  ((cs.dropWhile (· = '\n')).reverse.dropWhile (· = '\n')).reverse

/-- JS `str.split(/\r?\n/)` (tail-building worker). -/
def splitRNGo : List Char → List Char → List (List Char)
  | [], acc => [acc.reverse]
  | '\r' :: '\n' :: rest, acc => acc.reverse :: splitRNGo rest []
  | '\n' :: rest, acc => acc.reverse :: splitRNGo rest []
  | c :: rest, acc => splitRNGo rest (c :: acc)

/-- JS `str.split(/\r?\n/)`. -/
def splitRN (cs : List Char) : List (List Char) :=
  splitRNGo cs []

/-- JS `Array.prototype.join("\n")`. -/
def joinNl : List (List Char) → List Char
  | [] => []
  | [l] => l
  | l :: ls => l ++ '\n' :: joinNl ls

/-- Decimal digit character for `n < 10`. -/
def digitChar (n : Nat) : Char :=
  Char.ofNat (48 + n)

/-- Decimal digits of a natural number (fuel-bounded worker). -/
def natDigitsGo : Nat → Nat → List Char
  | 0, _ => []
  | fuel + 1, n =>
    if n < 10 then [digitChar n]
    else natDigitsGo fuel (n / 10) ++ [digitChar (n % 10)]

/-- JS number-to-string for a natural number. -/
def natToStr (n : Nat) : List Char :=
  natDigitsGo (n + 1) n

/-- Numeric value of a digit list. -/
def digitsVal (ds : List Char) : Nat :=
  ds.foldl (fun a c => a * 10 + (c.toNat - 48)) 0

/-- JS `parseInt(s, 10)`: skip whitespace, optional sign, leading decimal
digits; `none` models `NaN`. -/
def parseIntL (cs : List Char) : Option Int :=
  let body := cs.dropWhile isWsB
  match body with
  | '-' :: r =>
    let ds := r.takeWhile Char.isDigit
    if ds = [] then none else some (-(digitsVal ds : Int))
  | '+' :: r =>
    let ds := r.takeWhile Char.isDigit
    if ds = [] then none else some (digitsVal ds : Int)
  | r =>
    let ds := r.takeWhile Char.isDigit
    if ds = [] then none else some (digitsVal ds : Int)

/-- Global-regex replacement scan: walk left to right; at each position consult
the matcher (which also sees the previous original character, for lookbehinds
and line anchors); on a match emit the replacement and resume after the matched
span, otherwise copy one character.  Fuel `length + 1` always suffices because
every matcher below consumes at least one character. -/
def scanR (m : Option Char → List Char → Option (Nat × List Char)) :
    Nat → Option Char → List Char → List Char
  | 0, _, cs => cs
  | _ + 1, _, [] => []
  | fuel + 1, prev, c :: rest =>
    match m prev (c :: rest) with
    | some (len, rep) =>
      if len = 0 then c :: scanR m fuel (some c) rest
      else rep ++ scanR m fuel (((c :: rest).take len).getLast?) ((c :: rest).drop len)
    | none => c :: scanR m fuel (some c) rest

/-- Run one replacement pass over the whole text. -/
def runPass (m : Option Char → List Char → Option (Nat × List Char))
    (cs : List Char) : List Char :=
  scanR m (cs.length + 1) none cs

/-- Matcher for `/\[x\]([\s\S]*?)\[\/x\]/gi`-shaped tag pairs: open tag at the
current position, lazy body up to the first closing tag, replacement `f body`. -/
def tagPairM (openT closeT : List Char) (f : List Char → List Char)
    (_prev : Option Char) (cs : List Char) : Option (Nat × List Char) :=
  if startsWithCI openT cs then
    let rest := cs.drop openT.length
    match findSubCI closeT rest with
    | some k => some (openT.length + k + closeT.length, f (rest.take k))
    | none => none
  else none

/-- Matcher for `/\[url=([^\]]+)\]([\s\S]*?)\[\/url\]/gi`. -/
def urlM (_ : Option Char) (cs : List Char) : Option (Nat × List Char) :=
  if startsWithCI "[url=".data cs then
    let rest := cs.drop 5
    match findSubL "]".data rest with
    | some k =>
      if k = 0 then none
      else
        let href := rest.take k
        let rest2 := rest.drop (k + 1)
        match findSubCI "[/url]".data rest2 with
        | some j =>
          some (5 + k + 1 + j + 6, '[' :: rest2.take j ++ "](".data ++ href ++ ")".data)
        | none => none
    | none => none
  else none

/-- Matcher for `/\[thing=(\d+)\]([\s\S]*?)\[\/thing\]/gi`. -/
def thingM (_ : Option Char) (cs : List Char) : Option (Nat × List Char) :=
  if startsWithCI "[thing=".data cs then
    let rest := cs.drop 7
    let ds := rest.takeWhile Char.isDigit
    if ds = [] then none
    else if startsWithL "]".data (rest.drop ds.length) then
      let rest3 := rest.drop (ds.length + 1)
      match findSubCI "[/thing]".data rest3 with
      | some j =>
        some (7 + ds.length + 1 + j + 8,
          '[' :: rest3.take j ++ "](https://boardgamegeek.com/thing/".data ++ ds ++ ")".data)
      | none => none
    else none
  else none

/-- Matcher for `/\[user=\d+\]([\s\S]*?)\[\/user\]/gi`; the visible text is
`"@" + name` and the address is built from the tag body. -/
def userM (_ : Option Char) (cs : List Char) : Option (Nat × List Char) :=
  if startsWithCI "[user=".data cs then
    let rest := cs.drop 6
    let ds := rest.takeWhile Char.isDigit
    if ds = [] then none
    else if startsWithL "]".data (rest.drop ds.length) then
      let rest3 := rest.drop (ds.length + 1)
      match findSubCI "[/user]".data rest3 with
      | some j =>
        some (6 + ds.length + 1 + j + 7,
          "[@".data ++ rest3.take j ++ "](https://boardgamegeek.com/user/".data ++
            rest3.take j ++ ")".data)
      | none => none
    else none
  else none

/-- `quoteBodyToMarkdown` from the source: strip outer newline runs, prefix
every line with `"> "`, append a blank line. -/
def quoteBodyToMarkdownL (body : List Char) : List Char :=
  joinNl ((splitRN (stripNlEnds body)).map (fun l => "> ".data ++ l)) ++ "\n\n".data

/-- One match of the list-item split regex `/\n?\[\*\]\s*/i` at the head. -/
def markerLen (cs : List Char) : Option Nat :=
  if startsWithL "\n[*]".data cs then some (4 + wsRun (cs.drop 4))
  else if startsWithL "[*]".data cs then some (3 + wsRun (cs.drop 3))
  else none

/-- Worker for `String.prototype.split` on the item-marker regex. -/
def splitMarkerGo : Nat → List Char → List Char → List (List Char)
  | 0, acc, cs => [acc.reverse ++ cs]
  | _ + 1, acc, [] => [acc.reverse]
  | fuel + 1, acc, c :: rest =>
    match markerLen (c :: rest) with
    | some l => acc.reverse :: splitMarkerGo fuel [] ((c :: rest).drop l)
    | none => splitMarkerGo fuel (c :: acc) rest

/-- JS `body.split(/\n?\[\*\]\s*/i)`. -/
def splitMarker (cs : List Char) : List (List Char) :=
  splitMarkerGo (cs.length + 1) [] cs

/-- Worker for removal of stray markers, `it.replace(/\[\/*\]/g, "")`. -/
def stripStrayGo : Nat → List Char → List Char
  | 0, cs => cs
  | _ + 1, [] => []
  | fuel + 1, c :: rest =>
    if c = '[' then
      let sl := (rest.takeWhile (· = '/')).length
      if startsWithL "]".data (rest.drop sl) then stripStrayGo fuel (rest.drop (sl + 1))
      else c :: stripStrayGo fuel rest
    else c :: stripStrayGo fuel rest

/-- JS `it.replace(/\[\/*\]/g, "")`. -/
def stripStray (cs : List Char) : List Char :=
  stripStrayGo (cs.length + 1) cs

/-- Item extraction shared by the `[list]` and `[olist]` passes:
split on markers, trim each fragment, drop empty (falsy) fragments. -/
def listItems (body : List Char) : List (List Char) :=
  ((splitMarker body).map trimL).filter (fun l => !l.isEmpty)

/-- Replacement body of the `[list]` pass. -/
def listBodyRender (body : List Char) : List Char :=
  let items := listItems body
  if items.isEmpty then []
  else '\n' :: joinNl (items.map (fun it => "- ".data ++ trimL (stripStray it))) ++ ['\n']

/-- Index-threading map, embedding the JS `Array.prototype.map((it, i) => …)`. -/
def mapIdxGo (f : Nat → List Char → List Char) : Nat → List (List Char) → List (List Char)
  | _, [] => []
  | i, l :: ls => f i l :: mapIdxGo f (i + 1) ls

/-- Replacement body of the `[olist]` pass (items numbered `1..N`). -/
def olistBodyRender (body : List Char) : List Char :=
  let items := listItems body
  if items.isEmpty then []
  else
    '\n' ::
      joinNl (mapIdxGo
        (fun i it => natToStr (i + 1) ++ ". ".data ++ trimL (stripStray it)) 0 items) ++
      ['\n']

/-- The Size-to-Heading Table (`sizeToHashes` in the source), ordered
descending by threshold. -/
def sizeToHashes : List (Int × List Char) :=
  [(24, "#".data), (18, "##".data), (16, "###".data), (14, "####".data),
   (12, "#####".data), (10, "######".data)]

/-- First-match (highest-first) threshold lookup of the table. -/
def lookupHashes (n : Int) : List (Int × List Char) → Option (List Char)
  | [] => none
  | (t, h) :: rest => if n ≥ t then some h else lookupHashes n rest

/-- `sizeToHeading` from the source: parse the size, scan the table. -/
def sizeToHeadingL (sizeStr : List Char) : Option (List Char) :=
  match parseIntL sizeStr with
  | none => none
  | some n => lookupHashes n sizeToHashes

/-- `headingToSize` from the source. -/
def headingToSizeL (hashes : List Char) : Nat :=
  match hashes.length with
  | 1 => 24 | 2 => 18 | 3 => 16 | 4 => 14 | 5 => 12 | _ => 10

/-- Heading admissibility test of the `[size]` pass:
`/^(?:.|\n){0,120}$/.test(inner) && !/\n/.test(inner)`. -/
def headingTextOk (inner : List Char) : Bool :=
  (decide (inner.length ≤ 120) && inner.all (fun c => c = '\n' || isDotB c)) &&
    !inner.contains '\n'

/-- Replacement of one `[size=…]…[/size]` match. -/
def sizeRep (sz body : List Char) : List Char :=
  let inner := trimL body
  match sizeToHeadingL sz with
  | some hs => if headingTextOk inner then '\n' :: hs ++ ' ' :: inner ++ "\n\n".data else inner
  | none => inner

/-- Matcher for `/\[size=(\d{1,3})\]([\s\S]*?)\[\/size\]/gi`. -/
def sizeM (_ : Option Char) (cs : List Char) : Option (Nat × List Char) :=
  if startsWithCI "[size=".data cs then
    let rest := cs.drop 6
    let ds := rest.takeWhile Char.isDigit
    if ds ≠ [] ∧ ds.length ≤ 3 ∧ startsWithL "]".data (rest.drop ds.length) = true then
      let rest2 := rest.drop (ds.length + 1)
      match findSubCI "[/size]".data rest2 with
      | some j => some (6 + ds.length + 1 + j + 7, sizeRep ds (rest2.take j))
      | none => none
    else none
  else none

/-- Matcher for `/\[br\s*\/?\]/gi`. -/
def brM (_ : Option Char) (cs : List Char) : Option (Nat × List Char) :=
  if startsWithCI "[br".data cs then
    let w := wsRun (cs.drop 3)
    let rest := cs.drop (3 + w)
    if startsWithL "/]".data rest then some (3 + w + 2, "  \n".data)
    else if startsWithL "]".data rest then some (3 + w + 1, "  \n".data)
    else none
  else none

/-- Pass `[code] → fenced` of `bggToMarkdown`. -/
def codePassL : List Char → List Char :=
  runPass (tagPairM "[code]".data "[/code]".data
    (fun b => "\n```\n".data ++ stripNlEnds b ++ "\n```\n".data))

/-- Pass `[tt] → inline code` of `bggToMarkdown`. -/
def ttPassL : List Char → List Char :=
  runPass (tagPairM "[tt]".data "[/tt]".data (fun b => '`' :: b ++ ['`']))

/-- Pass `[b] → **…**`. -/
def boldTagPassL : List Char → List Char :=
  runPass (tagPairM "[b]".data "[/b]".data (fun b => "**".data ++ b ++ "**".data))

/-- Pass `[i] → *…*`. -/
def italTagPassL : List Char → List Char :=
  runPass (tagPairM "[i]".data "[/i]".data (fun b => '*' :: b ++ ['*']))

/-- Pass `[u] → <u>…</u>`. -/
def underTagPassL : List Char → List Char :=
  runPass (tagPairM "[u]".data "[/u]".data (fun b => "<u>".data ++ b ++ "</u>".data))

/-- Pass `[s] → ~~…~~`. -/
def strikeTagPassL : List Char → List Char :=
  runPass (tagPairM "[s]".data "[/s]".data (fun b => "~~".data ++ b ++ "~~".data))

/-- Pass `[-] → ~~…~~`. -/
def strikeDashPassL : List Char → List Char :=
  runPass (tagPairM "[-]".data "[/-]".data (fun b => "~~".data ++ b ++ "~~".data))

/-- Pass `[url=…] → […](…)`. -/
def urlPassL : List Char → List Char := runPass urlM

/-- Pass `[img] → ![](…)`. -/
def imgPassL : List Char → List Char :=
  runPass (tagPairM "[img]".data "[/img]".data (fun src => "![](".data ++ src ++ ")".data))

/-- Pass `[thing=id] → link`. -/
def thingPassL : List Char → List Char := runPass thingM

/-- Pass `[user=id] → link`. -/
def userPassL : List Char → List Char := runPass userM

/-- Pass `[quote] → blockquote`. -/
def quotePassL : List Char → List Char :=
  runPass (tagPairM "[quote]".data "[/quote]".data quoteBodyToMarkdownL)

/-- Pass `[list] → dashed lines`. -/
def listPassL : List Char → List Char :=
  runPass (tagPairM "[list]".data "[/list]".data listBodyRender)

/-- Pass `[olist] → numbered lines`. -/
def olistPassL : List Char → List Char :=
  runPass (tagPairM "[olist]".data "[/olist]".data olistBodyRender)

/-- Pass `[size=…] → heading` (heuristic). -/
def sizePassL : List Char → List Char := runPass sizeM

/-- Pass `[br] → hard break`. -/
def brPassL : List Char → List Char := runPass brM

/-- A protection rule: `startM`/`endM` give (index, length) of the first match
of the corresponding non-global regex, searched from position 0 (JS `exec` on
a non-global regex ignores `lastIndex`, so the end pattern too is searched
from the start of the text). -/
structure PRule where
  name : List Char
  startM : List Char → Option (Nat × Nat)
  endM : Option (List Char → Option (Nat × Nat))

/-- Placeholder token `__PROTECTED_<name>_<counter>__`. -/
def mkTokenL (name : List Char) (counter : Nat) : List Char :=
  "__PROTECTED_".data ++ name ++ '_' :: natToStr counter ++ "__".data

/-- State threaded through `protectSegments`. -/
structure PState where
  text : List Char
  counter : Nat
  store : List (List Char × List Char)

/-- The `while ((m = re.exec(text)))` loop of `protectSegments`, one rule. -/
def protectLoop (r : PRule) : Nat → PState → PState
  | 0, st => st
  | fuel + 1, st =>
    match r.startM st.text with
    | none => st
    | some (sIdx, sLen) =>
      let afterStart := sIdx + sLen
      let endIdx? : Option Nat :=
        match r.endM with
        | none => some afterStart
        | some em =>
          match em st.text with
          | none => none
          | some (eIdx, eLen) => some (eIdx + eLen)
      match endIdx? with
      | none => st
      | some endIdx =>
        let chunk := (st.text.drop sIdx).take (endIdx - sIdx)
        let token := mkTokenL r.name st.counter
        let text' := st.text.take sIdx ++ token ++ st.text.drop endIdx
        protectLoop r fuel ⟨text', st.counter + 1, st.store ++ [(token, chunk)]⟩

/-- `protectSegments`: run each rule's loop in order. -/
def protectSegments (input : List Char) (rules : List PRule) : PState :=
  rules.foldl (fun st r => protectLoop r (st.text.length + 1) st) ⟨input, 0, []⟩

/-- `{ name: "CODE_BGG", start: /\[code\]/i, end: /\[\/code\]/i }`. -/
def bggCodeRule : PRule :=
  ⟨"CODE_BGG".data,
   fun t => (findSubCI "[code]".data t).map (fun i => (i, 6)),
   some (fun t => (findSubCI "[/code]".data t).map (fun i => (i, 7)))⟩

/-- Start matcher of `/```[\s\S]*?\n/`: the leftmost "```" followed (lazily)
by a newline; if no newline follows the first "```", none follows any later
one either, so the whole pattern fails. -/
def fenceStartM (t : List Char) : Option (Nat × Nat) :=
  match findSubL "```".data t with
  | none => none
  | some i =>
    match findSubL "\n".data (t.drop (i + 3)) with
    | none => none
    | some j => some (i, 3 + j + 1)

/-- `{ name: "CODE_FENCE", start: /```[\s\S]*?\n/, end: /\n```/ }`. -/
def mdFenceRule : PRule :=
  ⟨"CODE_FENCE".data, fenceStartM,
   some (fun t => (findSubL "\n```".data t).map (fun i => (i, 4)))⟩

/-- Association lookup in the token store. -/
def lookupStore : List (List Char × List Char) → List Char → Option (List Char)
  | [], _ => none
  | (k, v) :: rest, tok => if k = tok then some v else lookupStore rest tok

/-- Completion attempt of the token regex after the lazy group: `_`, one or
more digits (greedy), then `__`. -/
def tokComplete (cs : List Char) : Option Nat :=
  match cs with
  | '_' :: rest =>
    let ds := rest.takeWhile Char.isDigit
    if ds ≠ [] ∧ startsWithL "__".data (rest.drop ds.length) = true then
      some (1 + ds.length + 2)
    else none
  | _ => none

/-- Lazy scan of the group `[A-Z0-9_]+?`: consume one group character, try the
completion, extend only on failure. -/
def tokGo : List Char → Option Nat
  | [] => none
  | c :: rest =>
    if c.isUpper || c.isDigit || c = '_' then
      match tokComplete rest with
      | some k => some (1 + k)
      | none => (tokGo rest).map (· + 1)
    else none

/-- Matcher for the restoration regex `/__PROTECTED_([A-Z0-9_]+?)_(\d+)__/g`;
a token with a recorded non-empty mapping is replaced by the mapping, any
other token is kept verbatim (`store[t] || t`). -/
def tokenM (store : List (List Char × List Char)) (_ : Option Char)
    (cs : List Char) : Option (Nat × List Char) :=
  if startsWithL "__PROTECTED_".data cs then
    match tokGo (cs.drop 12) with
    | some k =>
      let len := 12 + k
      let tok := cs.take len
      match lookupStore store tok with
      | some chunk => some (len, if chunk.isEmpty then tok else chunk)
      | none => some (len, tok)
    | none => none
  else none

/-- The restore closure returned by `protectSegments`. -/
def restoreL (store : List (List Char × List Char)) (s : List Char) : List Char :=
  runPass (tokenM store) s

/-- Matcher for the fenced-code translation pass
`/```([a-z0-9_-]+)?\n([\s\S]*?)\n```/gi` (language annotation discarded). -/
def fenceM (_ : Option Char) (cs : List Char) : Option (Nat × List Char) :=
  if startsWithL "```".data cs then
    let rest := cs.drop 3
    let lang := rest.takeWhile (fun c => c.isAlphanum || c = '_' || c = '-')
    let rest2 := rest.drop lang.length
    if startsWithL "\n".data rest2 then
      let rest3 := rest2.drop 1
      match findSubL "\n```".data rest3 with
      | some j =>
        some (3 + lang.length + 1 + j + 4,
          "[code]\n".data ++ stripNlEnds (rest3.take j) ++ "\n[/code]".data)
      | none => none
    else none
  else none

/-- Matcher for the inline-code pass (single backticks, no newline inside). -/
def inlineCodeM (_ : Option Char) (cs : List Char) : Option (Nat × List Char) :=
  match cs with
  | '`' :: rest =>
    let body := rest.takeWhile (fun c => c ≠ '`' && c ≠ '\n')
    if body ≠ [] ∧ startsWithL "`".data (rest.drop body.length) = true then
      some (1 + body.length + 1, "[tt]".data ++ body ++ "[/tt]".data)
    else none
  | _ => none

/-- `/^>\s?/` test of `blockquoteMarkdownToBgg`. -/
def bqIsQuote (l : List Char) : Bool :=
  match l with
  | '>' :: _ => true
  | _ => false

/-- `l.replace(/^>\s?/, "")`: the marker plus at most one whitespace char. -/
def bqStrip (l : List Char) : List Char :=
  match l with
  | '>' :: c :: rest => if isWsB c then rest else c :: rest
  | '>' :: [] => []
  | _ => l

/-- One flushed quote run, `[quote]\n…\n[/quote]`. -/
def bqMkQuote (buf : List (List Char)) : List Char :=
  "[quote]\n".data ++ joinNl (buf.map bqStrip) ++ "\n[/quote]".data

/-- Worker of `blockquoteMarkdownToBgg`: gather contiguous quote-line runs. -/
def bqGo : List (List Char) → List (List Char) → List (List Char)
  | [], buf => if buf.isEmpty then [] else [bqMkQuote buf]
  | l :: ls, buf =>
    if bqIsQuote l then bqGo ls (buf ++ [l])
    else (if buf.isEmpty then [] else [bqMkQuote buf]) ++ l :: bqGo ls []

/-- `blockquoteMarkdownToBgg` from the source. -/
def blockquoteMarkdownToBggL (md : List Char) : List Char :=
  joinNl (bqGo (splitRN md) [])

/-- Greedy `\s+` with the backtracking needed so that a following `.+` can
start: the largest `w ∈ [1, wsRun]` whose next character is dot-matchable. -/
def wsBackoff (afterRun : List Char) : Nat → Option Nat
  | 0 => none
  | w + 1 =>
    match (afterRun.drop (w + 1)).head? with
    | some c => if isDotB c then some (w + 1) else wsBackoff afterRun w
    | none => wsBackoff afterRun w

/-- Matcher for `/^(#{1,6})\s+(.+)$/gm` (`^` holds at the string start or
right after a newline; `$` before a newline or at the end). -/
def headingM (prev : Option Char) (cs : List Char) : Option (Nat × List Char) :=
  if prev = none ∨ prev = some '\n' then
    let hs := cs.takeWhile (· = '#')
    if 1 ≤ hs.length ∧ hs.length ≤ 6 then
      let afterHash := cs.drop hs.length
      match wsBackoff afterHash (wsRun afterHash) with
      | some w =>
        let text := (afterHash.drop w).takeWhile isDotB
        let after := afterHash.drop (w + text.length)
        if after.isEmpty || startsWithL "\n".data after then
          some (hs.length + w + text.length,
            "[size=".data ++ natToStr (headingToSizeL hs) ++ ']' :: trimL text ++
              "[/size]".data)
        else none
      | none => none
    else none
  else none

/-- First closing delimiter position: a `d` not followed by another `d`
(the lazy search with lookahead `(?!d)`). -/
def findCloseDelim (d : Char) : List Char → Option Nat
  | [] => none
  | c :: rest =>
    if c = d ∧ rest.head? ≠ some d then some 0
    else (findCloseDelim d rest).map (· + 1)

/-- Matcher for `/(?<!\*)\*([^\s*][\s\S]*?)\*(?!\*)/g`. -/
def italStarM (prev : Option Char) (cs : List Char) : Option (Nat × List Char) :=
  match cs with
  | '*' :: c2 :: tail =>
    if prev ≠ some '*' ∧ ¬isWsB c2 ∧ c2 ≠ '*' then
      match findCloseDelim '*' tail with
      | some j => some (j + 3, "[i]".data ++ c2 :: tail.take j ++ "[/i]".data)
      | none => none
    else none
  | _ => none

/-- Matcher for `/(?<!_)_([^\s_][\s\S]*?)_(?!_)/g`. -/
def italUnderM (prev : Option Char) (cs : List Char) : Option (Nat × List Char) :=
  match cs with
  | '_' :: c2 :: tail =>
    if prev ≠ some '_' ∧ ¬isWsB c2 ∧ c2 ≠ '_' then
      match findCloseDelim '_' tail with
      | some j => some (j + 3, "[i]".data ++ c2 :: tail.take j ++ "[/i]".data)
      | none => none
    else none
  | _ => none

/-- Parse `https?:\/\/[^)]+\)` at the head; returns the captured URL and the
consumed length including the closing parenthesis. -/
def parseHref (cs : List Char) : Option (List Char × Nat) :=
  if startsWithL "http".data cs then
    let rest := cs.drop 4
    let sPart := if startsWithL "s".data rest then "s".data else []
    let rest2 := rest.drop sPart.length
    if startsWithL "://".data rest2 then
      let rest3 := rest2.drop 3
      let run := rest3.takeWhile (· ≠ ')')
      if run ≠ [] ∧ startsWithL ")".data (rest3.drop run.length) = true then
        some ("http".data ++ sPart ++ "://".data ++ run,
          4 + sPart.length + 3 + run.length + 1)
      else none
    else none
  else none

/-- Search `/boardgamegeek\.com\/(?:thing|boardgame)\/(\d+)/i` in a URL. -/
def findThingId : List Char → Option (List Char)
  | [] => none
  | c :: rest =>
    if startsWithCI "boardgamegeek.com/".data (c :: rest) then
      let a := (c :: rest).drop 18
      if startsWithCI "thing/".data a then
        let ds := (a.drop 6).takeWhile Char.isDigit
        if ds ≠ [] then some ds else findThingId rest
      else if startsWithCI "boardgame/".data a then
        let ds := (a.drop 10).takeWhile Char.isDigit
        if ds ≠ [] then some ds else findThingId rest
      else findThingId rest
    else findThingId rest

/-- Search `/boardgamegeek\.com\/user\/([A-Za-z0-9_-]+)/i` in a URL. -/
def findUserName : List Char → Option (List Char)
  | [] => none
  | c :: rest =>
    if startsWithCI "boardgamegeek.com/user/".data (c :: rest) then
      let un := ((c :: rest).drop 23).takeWhile
        (fun c => c.isAlphanum || c = '_' || c = '-')
      if un ≠ [] then some un else findUserName rest
    else findUserName rest

/-- Replacement chosen for a matched `[text](href)` pair. -/
def linkRep (text href : List Char) : List Char :=
  match findThingId href with
  | some d => "[thing=".data ++ d ++ ']' :: text ++ "[/thing]".data
  | none =>
    match findUserName href with
    | some u => "[user=0]".data ++ u ++ "[/user]".data
    | none => "[url=".data ++ href ++ ']' :: text ++ "[/url]".data

/-- Matcher for `/\[([^\]]+)\]\((https?:\/\/[^)]+)\)/g`. -/
def linkM (_ : Option Char) (cs : List Char) : Option (Nat × List Char) :=
  match cs with
  | '[' :: rest =>
    match findSubL "]".data rest with
    | some k =>
      if k = 0 then none
      else
        let text := rest.take k
        match rest.drop (k + 1) with
        | '(' :: rest3 =>
          match parseHref rest3 with
          | some (href, hl) => some (1 + k + 1 + 1 + hl, linkRep text href)
          | none => none
        | _ => none
    | none => none
  | _ => none

/-- Matcher for `/!\[([^\]]*)\]\((https?:\/\/[^)]+)\)/g`; the alt text is
captured but discarded. -/
def imageM (_ : Option Char) (cs : List Char) : Option (Nat × List Char) :=
  match cs with
  | '!' :: '[' :: rest =>
    match findSubL "]".data rest with
    | some k =>
      match rest.drop (k + 1) with
      | '(' :: rest3 =>
        match parseHref rest3 with
        | some (href, hl) =>
          some (2 + k + 1 + 1 + hl, "[img]".data ++ href ++ "[/img]".data)
        | none => none
      | _ => none
    | none => none
  | _ => none

/-- Bullet class `[-*+]`. -/
def isBulletB (c : Char) : Bool := c = '-' || c = '*' || c = '+'

/-- Parse `\s+(.+)` at the head (greedy whitespace with backoff, then the
rest of the line); returns the consumed length. -/
def itemTail (cs : List Char) : Option Nat :=
  match wsBackoff cs (wsRun cs) with
  | some w => some (w + ((cs.drop w).takeWhile isDotB).length)
  | none => none

/-- Greedy `(?:\n\1\2\s+.+)*` continuation of the unordered-list matcher. -/
def ulContGo (indent : List Char) (bullet : Char) : Nat → List Char → Nat
  | 0, _ => 0
  | fuel + 1, cs =>
    match cs with
    | '\n' :: rest =>
      if startsWithL indent rest then
        match rest.drop indent.length with
        | b :: r3 =>
          if b = bullet then
            match itemTail r3 with
            | some t =>
              let l := 1 + indent.length + 1 + t
              l + ulContGo indent bullet fuel (cs.drop l)
            | none => 0
          else 0
        | [] => 0
      else 0
    | _ => 0

/-- Core of the unordered-list matcher after the `(?:^|\n)` anchor. -/
def ulCore (cs : List Char) : Option Nat :=
  let indent := cs.takeWhile (fun c => c = ' ' || c = '\t')
  match cs.drop indent.length with
  | b :: r =>
    if isBulletB b then
      match itemTail r with
      | some t =>
        let l := indent.length + 1 + t
        some (l + ulContGo indent b (cs.length + 1) (cs.drop l))
      | none => none
    else none
  | [] => none

/-- `l.replace(/^[ \t]*[-*+]\s+/, "")`. -/
def ulLineStrip (l : List Char) : List Char :=
  let ind := l.takeWhile (fun c => c = ' ' || c = '\t')
  match l.drop ind.length with
  | b :: r => if isBulletB b ∧ wsRun r ≥ 1 then r.drop (wsRun r) else l
  | [] => l

/-- Replacement for a matched unordered-list block. -/
def ulRep (block : List Char) : List Char :=
  let items := (splitRN (trimL block)).map (fun l => trimL (ulLineStrip l))
  '\n' :: "[list]\n".data ++ joinNl (items.map (fun it => "[*] ".data ++ it)) ++
    "\n[/list]".data

/-- Matcher for
`/(?:^|\n)([ \t]*)([-*+])\s+(.+)(?:\n\1\2\s+.+)*/g` (the `^` alternative is
tried first at the string start; otherwise a newline is consumed). -/
def ulistM (prev : Option Char) (cs : List Char) : Option (Nat × List Char) :=
  match (if prev = none then ulCore cs else none) with
  | some l => some (l, ulRep (cs.take l))
  | none =>
    match cs with
    | '\n' :: rest =>
      match ulCore rest with
      | some l => some (1 + l, ulRep (cs.take (1 + l)))
      | none => none
    | _ => none

/-- Greedy `(?:\n\1\d+\.\s+.+)*` continuation of the ordered-list matcher. -/
def olContGo (indent : List Char) : Nat → List Char → Nat
  | 0, _ => 0
  | fuel + 1, cs =>
    match cs with
    | '\n' :: rest =>
      if startsWithL indent rest then
        let r2 := rest.drop indent.length
        let ds := r2.takeWhile Char.isDigit
        if ds ≠ [] ∧ startsWithL ".".data (r2.drop ds.length) = true then
          match itemTail (r2.drop (ds.length + 1)) with
          | some t =>
            let l := 1 + indent.length + ds.length + 1 + t
            l + olContGo indent fuel (cs.drop l)
          | none => 0
        else 0
      else 0
    | _ => 0

/-- Core of the ordered-list matcher after the `(?:^|\n)` anchor. -/
def olCore (cs : List Char) : Option Nat :=
  let indent := cs.takeWhile (fun c => c = ' ' || c = '\t')
  let r := cs.drop indent.length
  let ds := r.takeWhile Char.isDigit
  if ds ≠ [] ∧ startsWithL ".".data (r.drop ds.length) = true then
    match itemTail (r.drop (ds.length + 1)) with
    | some t =>
      let l := indent.length + ds.length + 1 + t
      some (l + olContGo indent (cs.length + 1) (cs.drop l))
    | none => none
  else none

/-- `l.replace(/^[ \t]*\d+\.\s+/, "")`. -/
def olLineStrip (l : List Char) : List Char :=
  let ind := l.takeWhile (fun c => c = ' ' || c = '\t')
  let r := l.drop ind.length
  let ds := r.takeWhile Char.isDigit
  if ds ≠ [] ∧ startsWithL ".".data (r.drop ds.length) = true then
    let r2 := r.drop (ds.length + 1)
    if wsRun r2 ≥ 1 then r2.drop (wsRun r2) else l
  else l

/-- Replacement for a matched ordered-list block. -/
def olRep (block : List Char) : List Char :=
  let items := (splitRN (trimL block)).map (fun l => trimL (olLineStrip l))
  '\n' :: "[olist]\n".data ++ joinNl (items.map (fun it => "[*] ".data ++ it)) ++
    "\n[/olist]".data

/-- Matcher for `/(?:^|\n)([ \t]*)\d+\.\s+(.+)(?:\n\1\d+\.\s+.+)*/g`. -/
def olistMdM (prev : Option Char) (cs : List Char) : Option (Nat × List Char) :=
  match (if prev = none then olCore cs else none) with
  | some l => some (l, olRep (cs.take l))
  | none =>
    match cs with
    | '\n' :: rest =>
      match olCore rest with
      | some l => some (1 + l, olRep (cs.take (1 + l)))
      | none => none
    | _ => none

/-- Matcher for `/  \n/g` (hard-break convention). -/
def br2M (_ : Option Char) (cs : List Char) : Option (Nat × List Char) :=
  if startsWithL "  \n".data cs then some (3, "[br]\n".data) else none

/-- Fenced-code translation pass of `markdownToBgg`. -/
def fencePassL : List Char → List Char := runPass fenceM

/-- Inline-code pass of `markdownToBgg`. -/
def inlineCodePassL : List Char → List Char := runPass inlineCodeM

/-- Heading pass of `markdownToBgg`. -/
def headingPassL : List Char → List Char := runPass headingM

/-- Bold pass of `markdownToBgg`. -/
def boldMdPassL : List Char → List Char :=
  runPass (tagPairM "**".data "**".data (fun b => "[b]".data ++ b ++ "[/b]".data))

/-- Asterisk-italics pass of `markdownToBgg`. -/
def italStarPassL : List Char → List Char := runPass italStarM

/-- Underscore-italics pass of `markdownToBgg`. -/
def italUnderPassL : List Char → List Char := runPass italUnderM

/-- Strikethrough pass of `markdownToBgg`. -/
def strikeMdPassL : List Char → List Char :=
  runPass (tagPairM "~~".data "~~".data (fun b => "[s]".data ++ b ++ "[/s]".data))

/-- Link pass of `markdownToBgg`. -/
def linkPassL : List Char → List Char := runPass linkM

/-- Image pass of `markdownToBgg`. -/
def imagePassL : List Char → List Char := runPass imageM

/-- Unordered-list pass of `markdownToBgg`. -/
def ulistPassL : List Char → List Char := runPass ulistM

/-- Ordered-list pass of `markdownToBgg`. -/
def olistMdPassL : List Char → List Char := runPass olistMdM

/-- Hard-break pass of `markdownToBgg`. -/
def br2PassL : List Char → List Char := runPass br2M

/-- Underline pass of `markdownToBgg`. -/
def underlinePassL : List Char → List Char :=
  runPass (tagPairM "<u>".data "</u>".data (fun b => "[u]".data ++ b ++ "[/u]".data))

/-- `bggToMarkdown` on character lists: protect `[code]` spans, run the fixed
pass sequence, restore protected tokens. -/
def bggToMarkdownL (input : List Char) : List Char :=
  let p := protectSegments input [bggCodeRule]
  let o1 := codePassL p.text
  let o2 := ttPassL o1
  let o3 := boldTagPassL o2
  let o4 := italTagPassL o3
  let o5 := underTagPassL o4
  let o6 := strikeTagPassL o5
  let o7 := strikeDashPassL o6
  let o8 := urlPassL o7
  let o9 := imgPassL o8
  let o10 := thingPassL o9
  let o11 := userPassL o10
  let o12 := quotePassL o11
  let o13 := listPassL o12
  let o14 := olistPassL o13
  let o15 := sizePassL o14
  let o16 := brPassL o15
  restoreL p.store o16

/-- Exported `bggToMarkdown` (`if (!input) return input`). -/
def bggToMarkdown (input : String) : String :=
  if input = "" then input else ⟨bggToMarkdownL input.data⟩

/-- `markdownToBgg` on character lists: protect fenced code, run the fixed
pass sequence, restore protected tokens. -/
def markdownToBggL (input : List Char) : List Char :=
  let p := protectSegments input [mdFenceRule]
  let o1 := fencePassL p.text
  let o2 := inlineCodePassL o1
  let o3 := blockquoteMarkdownToBggL o2
  let o4 := headingPassL o3
  let o5 := boldMdPassL o4
  let o6 := italStarPassL o5
  let o7 := italUnderPassL o6
  let o8 := strikeMdPassL o7
  let o9 := linkPassL o8
  let o10 := imagePassL o9
  let o11 := ulistPassL o10
  let o12 := olistMdPassL o11
  let o13 := br2PassL o12
  let o14 := underlinePassL o13
  restoreL p.store o14

/-- Exported `markdownToBgg` (`if (!input) return input`). -/
def markdownToBgg (input : String) : String :=
  if input = "" then input else ⟨markdownToBggL input.data⟩

/-- `convert(input, direction)`. -/
def convert (input direction : String) : String :=
  if direction = "bgg2md" then bggToMarkdown input else markdownToBgg input

/-- No match of `pat` starts inside the `xs` part of `xs ++ ys`. -/
def noStartCI (pat xs ys : List Char) : Prop :=
  ∀ i, i < xs.length → startsWithCI pat ((xs ++ ys).drop i) = false

/-- Body of a `[list]`/`[olist]` block holding the given items: one
`"\n[*] item"` per item followed by a final newline. -/
def listBodyOf : List (List Char) → List Char
  | [] => ['\n']
  | it :: rest => "\n[*] ".data ++ it ++ listBodyOf rest

/-- The pieces produced by the item-marker split of `listBodyOf`. -/
def smPieces : List Char → List (List Char) → List (List Char)
  | acc, [] => [acc.reverse ++ ['\n']]
  | acc, it :: rest => acc.reverse :: smPieces it.reverse rest

/-- Well-formedness of one list item for the list-block statement: non-empty,
already trimmed, and free of newlines and opening brackets. -/
def itemOkP (it : List Char) : Prop :=
  it ≠ [] ∧ trimL it = it ∧ ∀ c ∈ it, c ≠ '\n' ∧ lowAscii c ≠ '['

instance itemOkP_dec (it : List Char) : Decidable (itemOkP it) := by
  unfold itemOkP
  infer_instance

lemma scanR_nil (m : Option Char → List Char → Option (Nat × List Char))
    (fuel : Nat) (prev : Option Char) : scanR m fuel prev [] = [] := by
  cases fuel <;> rfl

lemma scanR_no_match (m : Option Char → List Char → Option (Nat × List Char)) :
    ∀ (fuel : Nat) (cs : List Char) (prev : Option Char),
      (∀ p i, m p (cs.drop i) = none) → scanR m fuel prev cs = cs := by
  intro fuel
  induction fuel with
  | zero => intro cs prev _; rfl
  | succ f ih =>
    intro cs prev h
    cases cs with
    | nil => rfl
    | cons c rest =>
      have h0 : m prev (c :: rest) = none := by simpa using h prev 0
      have hrest : ∀ p i, m p (rest.drop i) = none := fun p i => by
        simpa using h p (i + 1)
      simp [scanR, h0, ih rest (some c) hrest]

lemma scanR_single_match (m : Option Char → List Char → Option (Nat × List Char))
    (t rep b : List Char) (htne : t ≠ [])
    (ht : ∀ p, m p (t ++ b) = some (t.length, rep))
    (hb : ∀ p i, m p (b.drop i) = none) :
    ∀ (a : List Char) (fuel : Nat) (prev : Option Char),
      (∀ p i, i < a.length → m p ((a ++ (t ++ b)).drop i) = none) →
      a.length < fuel →
      scanR m fuel prev (a ++ (t ++ b)) = a ++ rep ++ b := by
  intro a
  induction a with
  | nil =>
    intro fuel prev _ hf
    cases fuel with
    | zero => omega
    | succ f =>
      cases t with
      | nil => exact absurd rfl htne
      | cons c t' =>
        have hm : m prev (c :: (t' ++ b)) = some (t'.length + 1, rep) := by
          simpa using ht prev
        have hdrop : List.drop (t'.length + 1) (c :: (t' ++ b)) = b := by
          rw [List.drop_succ_cons]; exact List.drop_left t' b
        have hscan : scanR m (f + 1) prev (c :: (t' ++ b)) =
            rep ++ scanR m f ((List.take (t'.length + 1) (c :: (t' ++ b))).getLast?)
              (List.drop (t'.length + 1) (c :: (t' ++ b))) := by
          simp [scanR, hm]
        simp only [List.nil_append, List.cons_append]
        rw [hscan, hdrop, scanR_no_match m f b _ hb]
  | cons c a' ih =>
    intro fuel prev h hf
    cases fuel with
    | zero => omega
    | succ f =>
      have h0 : m prev (c :: (a' ++ (t ++ b))) = none := by
        simpa using h prev 0 (by simp)
      have hrest : ∀ p i, i < a'.length → m p ((a' ++ (t ++ b)).drop i) = none :=
        fun p i hi => by simpa using h p (i + 1) (by simpa using Nat.succ_lt_succ hi)
      have hstep : scanR m (f + 1) prev ((c :: a') ++ (t ++ b)) =
          c :: scanR m f (some c) (a' ++ (t ++ b)) := by
        rw [List.cons_append]; simp [scanR, h0]
      have hflt : a'.length < f := by
        simp only [List.length_cons] at hf; omega
      rw [hstep, ih f (some c) hrest hflt]
      simp

lemma runPass_whole (m : Option Char → List Char → Option (Nat × List Char))
    (t rep : List Char) (htne : t ≠ [])
    (ht : ∀ p, m p t = some (t.length, rep)) (hnil : ∀ p, m p [] = none) :
    runPass m t = rep := by
  have key := scanR_single_match m t rep [] htne
    (fun p => by simpa using ht p)
    (fun p i => by simpa using hnil p)
    [] (t.length + 1) none (fun p i hi => by simp at hi) (by simp)
  simpa [runPass] using key

lemma startsWithCI_refl_append (pat r : List Char) : startsWithCI pat (pat ++ r) = true := by
  induction pat with
  | nil => rfl
  | cons p ps ih => simp [startsWithCI, ih]

lemma startsWithL_refl_append (pat r : List Char) : startsWithL pat (pat ++ r) = true := by
  induction pat with
  | nil => rfl
  | cons p ps ih => simp [startsWithL, ih]

lemma startsWithCI_head_false (p : Char) (ps : List Char) (c : Char) (cs : List Char)
    (h : lowAscii p ≠ lowAscii c) : startsWithCI (p :: ps) (c :: cs) = false := by
  simp [startsWithCI, h]

lemma startsWithCI_found (pat tail : List Char) (hne : pat ≠ [])
    (h : startsWithCI pat tail = true) : findSubCI pat tail = some 0 := by
  cases tail with
  | nil =>
    cases pat with
    | nil => exact absurd rfl hne
    | cons p ps => simp [startsWithCI] at h
  | cons c cs => simp [findSubCI, h]

lemma findSubCI_cons_false (pat : List Char) (c : Char) (cs : List Char)
    (h : startsWithCI pat (c :: cs) = false) :
    findSubCI pat (c :: cs) = (findSubCI pat cs).map (· + 1) := by
  simp [findSubCI, h]

lemma findSubCI_skip (pat xs ys : List Char)
    (h : noStartCI pat xs ys) :
    findSubCI pat (xs ++ ys) = (findSubCI pat ys).map (· + xs.length) := by
  induction xs with
  | nil =>
    rcases hfind : findSubCI pat ys with _ | n <;> simp [hfind]
  | cons x xs' ih =>
    have h0 : startsWithCI pat (x :: (xs' ++ ys)) = false := by
      simpa using h 0 (by simp)
    have hx' : noStartCI pat xs' ys := fun i hi => by
      simpa using h (i + 1) (by simpa using Nat.succ_lt_succ hi)
    rw [List.cons_append, findSubCI_cons_false _ _ _ h0, ih hx']
    cases findSubCI pat ys with
    | none => simp
    | some n => simp; omega

lemma findSubCI_boundary (pat xs tail : List Char) (hne : pat ≠ [])
    (hx : noStartCI pat xs tail)
    (ht : startsWithCI pat tail = true) :
    findSubCI pat (xs ++ tail) = some xs.length := by
  rw [findSubCI_skip pat xs tail hx, startsWithCI_found pat tail hne ht]
  simp

lemma noStartCI_chars (p : Char) (ps xs ys : List Char)
    (h : ∀ c ∈ xs, lowAscii p ≠ lowAscii c) : noStartCI (p :: ps) xs ys := by
  induction xs with
  | nil => intro i hi; simp at hi
  | cons x xs' ih =>
    intro i hi
    cases i with
    | zero =>
      simpa using startsWithCI_head_false p ps x (xs' ++ ys) (h x (by simp))
    | succ j =>
      have := ih (fun c hc => h c (by simp [hc])) j (by simpa using hi)
      simpa using this

lemma noStartCI_append (pat xs ys zs : List Char)
    (h1 : noStartCI pat xs (ys ++ zs)) (h2 : noStartCI pat ys zs) :
    noStartCI pat (xs ++ ys) zs := by
  intro i hi
  rcases Nat.lt_or_ge i xs.length with h | h
  · have := h1 i h
    simpa [List.append_assoc] using this
  · obtain ⟨j, rfl⟩ : ∃ j, i = xs.length + j := ⟨i - xs.length, by omega⟩
    have hj : j < ys.length := by
      simp [List.length_append] at hi; omega
    have := h2 j hj
    rw [List.append_assoc, List.drop_append]
    exact this

lemma takeWhile_append_stop (p : Char → Bool) (xs : List Char) (y : Char) (ys : List Char)
    (hxs : ∀ c ∈ xs, p c = true) (hy : p y = false) :
    (xs ++ y :: ys).takeWhile p = xs := by
  induction xs with
  | nil => simp [List.takeWhile_cons, hy]
  | cons x xs' ih =>
    have hx : p x = true := hxs x (by simp)
    simp [List.takeWhile_cons, hx, ih (fun c hc => hxs c (by simp [hc]))]

lemma digitChar_isDigit (n : Nat) (h : n < 10) : (digitChar n).isDigit = true := by
  interval_cases n <;> decide

lemma natDigitsGo_spec (fuel : Nat) :
    ∀ n, n < fuel →
      natDigitsGo fuel n ≠ [] ∧ ∀ c ∈ natDigitsGo fuel n, c.isDigit = true := by
  induction fuel with
  | zero => intro n h; omega
  | succ f ih =>
    intro n h
    by_cases hn : n < 10
    · refine ⟨by simp [natDigitsGo, hn], ?_⟩
      intro c hc
      simp [natDigitsGo, hn] at hc
      subst hc
      exact digitChar_isDigit n hn
    · have hdiv : n / 10 < f := by
        have h1 : n / 10 < n := Nat.div_lt_self (by omega) (by norm_num)
        omega
      obtain ⟨hne, hall⟩ := ih (n / 10) hdiv
      refine ⟨by simp [natDigitsGo, hn], ?_⟩
      intro c hc
      simp only [natDigitsGo, hn, if_false, List.mem_append, List.mem_singleton] at hc
      rcases hc with hc | hc
      · exact hall c hc
      · subst hc
        exact digitChar_isDigit (n % 10) (Nat.mod_lt _ (by norm_num))

lemma natToStr_ne_nil (n : Nat) : natToStr n ≠ [] :=
  (natDigitsGo_spec (n + 1) n (by omega)).1

lemma natToStr_digits (n : Nat) : ∀ c ∈ natToStr n, c.isDigit = true :=
  (natDigitsGo_spec (n + 1) n (by omega)).2

lemma upper_ne_underscore (c : Char) (h : c.isUpper = true) : c ≠ '_' := by
  intro he
  rw [he] at h
  exact absurd h (by decide)

lemma tokComplete_cons_ne (c : Char) (cs : List Char) (hc : c ≠ '_') :
    tokComplete (c :: cs) = none := by
  rw [tokComplete.eq_def]
  split
  · next rest heq =>
    rw [List.cons.injEq] at heq
    exact absurd heq.1 hc
  · rfl

lemma tokComplete_digits (ds b : List Char) (hds : ds ≠ [])
    (hdig : ∀ c ∈ ds, c.isDigit = true) :
    tokComplete ('_' :: (ds ++ '_' :: '_' :: b)) = some (1 + ds.length + 2) := by
  have htw : (ds ++ '_' :: ('_' :: b)).takeWhile Char.isDigit = ds :=
    takeWhile_append_stop _ ds '_' ('_' :: b) hdig (by decide)
  have hdrop : (ds ++ '_' :: ('_' :: b)).drop ds.length = '_' :: '_' :: b :=
    List.drop_left ds _
  simp [tokComplete, htw, hdrop, hds, startsWithL]

lemma tokGo_token (name ds b : List Char) (hname : name ≠ [])
    (hup : ∀ c ∈ name, c.isUpper = true)
    (hds : ds ≠ []) (hdig : ∀ c ∈ ds, c.isDigit = true) :
    tokGo (name ++ '_' :: (ds ++ '_' :: '_' :: b)) =
      some (name.length + (1 + ds.length + 2)) := by
  induction name with
  | nil => exact absurd rfl hname
  | cons c name' ih =>
    have hcup : c.isUpper = true := hup c (by simp)
    have hchset : (c.isUpper || c.isDigit || decide (c = '_')) = true := by
      simp [hcup]
    cases name' with
    | nil =>
      have hcomp := tokComplete_digits ds b hds hdig
      simp [tokGo, hchset, hcomp]
    | cons c2 name'' =>
      have hc2up : c2.isUpper = true := hup c2 (by simp)
      have hc2 : tokComplete (c2 :: (name'' ++ '_' :: (ds ++ '_' :: '_' :: b))) = none :=
        tokComplete_cons_ne c2 _ (upper_ne_underscore c2 hc2up)
      have ihh := ih (by simp) (fun x hx => hup x (by simp at hx ⊢; tauto))
      rw [List.cons_append]
      rw [tokGo.eq_def]
      simp only [hchset, if_true]
      rw [List.cons_append] at ihh
      simp [hc2, ihh]
      omega

lemma mkTokenL_length (name : List Char) (n : Nat) :
    (mkTokenL name n).length = 12 + (name.length + (1 + (natToStr n).length + 2)) := by
  simp [mkTokenL]
  omega

lemma tokenM_nil (store : List (List Char × List Char)) (p : Option Char) :
    tokenM store p [] = none := by
  simp [tokenM, startsWithL]

lemma tokenM_cons_ne (store : List (List Char × List Char)) (p : Option Char)
    (c : Char) (cs : List Char) (hc : c ≠ '_') : tokenM store p (c :: cs) = none := by
  have : startsWithL "__PROTECTED_".data (c :: cs) = false := by
    simp [startsWithL, Ne.symm hc]
  simp [tokenM, this]

lemma tokenM_no_underscore (store : List (List Char × List Char)) (p : Option Char)
    (cs : List Char) (h : ∀ c ∈ cs, c ≠ '_') : tokenM store p cs = none := by
  cases hcs : cs with
  | nil => exact tokenM_nil store p
  | cons c rest =>
    exact tokenM_cons_ne store p c rest (h c (by rw [hcs]; simp))

lemma tokenM_match (store : List (List Char × List Char)) (name : List Char) (n : Nat)
    (b : List Char) (hname : name ≠ []) (hup : ∀ c ∈ name, c.isUpper = true)
    (p : Option Char) :
    tokenM store p (mkTokenL name n ++ b) =
      some ((mkTokenL name n).length,
        match lookupStore store (mkTokenL name n) with
        | some chunk => if chunk.isEmpty then mkTokenL name n else chunk
        | none => mkTokenL name n) := by
  have hshape : mkTokenL name n ++ b =
      "__PROTECTED_".data ++ (name ++ '_' :: (natToStr n ++ '_' :: '_' :: b)) := by
    simp [mkTokenL]
  have hsw : startsWithL "__PROTECTED_".data (mkTokenL name n ++ b) = true := by
    rw [hshape]; exact startsWithL_refl_append _ _
  have hdrop12 : (mkTokenL name n ++ b).drop 12 =
      name ++ '_' :: (natToStr n ++ '_' :: '_' :: b) := by
    rw [hshape]; exact List.drop_left' (by decide)
  have htok := tokGo_token name (natToStr n) b hname hup (natToStr_ne_nil n) (natToStr_digits n)
  have htake : (mkTokenL name n ++ b).take (12 + (name.length + (1 + (natToStr n).length + 2))) =
      mkTokenL name n :=
    List.take_left' (by rw [mkTokenL_length])
  rw [tokenM.eq_def]
  simp only [hsw, if_true, hdrop12, htok, htake, mkTokenL_length]
  cases lookupStore store (mkTokenL name n) <;> rfl

lemma restore_token_core (store : List (List Char × List Char))
    (a b name : List Char) (n : Nat)
    (ha : ∀ c ∈ a, c ≠ '_') (hb : ∀ c ∈ b, c ≠ '_')
    (hname : name ≠ []) (hup : ∀ c ∈ name, c.isUpper = true) :
    restoreL store (a ++ mkTokenL name n ++ b) =
      a ++ (match lookupStore store (mkTokenL name n) with
        | some chunk => if chunk.isEmpty then mkTokenL name n else chunk
        | none => mkTokenL name n) ++ b := by
  have htne : mkTokenL name n ≠ [] := by
    intro h
    have hl := congrArg List.length h
    rw [mkTokenL_length] at hl
    simp at hl
  have hbnone : ∀ (p : Option Char) (i : Nat), tokenM store p (b.drop i) = none := fun p i =>
    tokenM_no_underscore store p _ (fun c hc => hb c (List.mem_of_mem_drop hc))
  have hanone : ∀ (p : Option Char), ∀ i < a.length,
      tokenM store p ((a ++ (mkTokenL name n ++ b)).drop i) = none := by
    intro p i hi
    rw [List.drop_append_of_le_length (le_of_lt hi)]
    cases hd : a.drop i with
    | nil =>
      have hlen := congrArg List.length hd
      simp [List.length_drop] at hlen
      omega
    | cons c rest =>
      have hc : c ∈ a := List.mem_of_mem_drop (by rw [hd]; exact List.mem_cons_self c rest)
      rw [List.cons_append]
      exact tokenM_cons_ne store p c _ (ha c hc)
  have hmatch : ∀ p, tokenM store p (mkTokenL name n ++ b) =
      some ((mkTokenL name n).length,
        match lookupStore store (mkTokenL name n) with
        | some chunk => if chunk.isEmpty then mkTokenL name n else chunk
        | none => mkTokenL name n) := fun p =>
    tokenM_match store name n b hname hup p
  have key := scanR_single_match (tokenM store) (mkTokenL name n) _ b htne hmatch hbnone a
    ((a ++ (mkTokenL name n ++ b)).length + 1) none hanone (by simp; omega)
  calc restoreL store (a ++ mkTokenL name n ++ b)
      = scanR (tokenM store) ((a ++ (mkTokenL name n ++ b)).length + 1) none
          (a ++ (mkTokenL name n ++ b)) := by
        simp [restoreL, runPass, List.append_assoc]
    _ = _ := key

/-- C9: every placeholder-shaped token scanned by the restore function is
handled totally: a token with a recorded (non-empty) mapping is replaced by
its original span; a token with no mapping in the store surfaces verbatim in
the output. -/
theorem c9_restore_behavior (store : List (List Char × List Char))
    (a b name : List Char) (n : Nat)
    (ha : ∀ c ∈ a, c ≠ '_') (hb : ∀ c ∈ b, c ≠ '_')
    (hname : name ≠ []) (hup : ∀ c ∈ name, c.isUpper = true) :
    (∀ chunk, lookupStore store (mkTokenL name n) = some chunk → chunk ≠ [] →
        restoreL store (a ++ mkTokenL name n ++ b) = a ++ chunk ++ b) ∧
    (lookupStore store (mkTokenL name n) = none →
        restoreL store (a ++ mkTokenL name n ++ b) = a ++ mkTokenL name n ++ b) := by
  have hmain := restore_token_core store a b name n ha hb hname hup
  constructor
  · intro chunk hc hcne
    rw [hmain, hc]
    cases chunk with
    | nil => exact absurd rfl hcne
    | cons x xs => rfl
  · intro hnone
    rw [hmain, hnone]

/-- Witness for C9: a mapped token is replaced, an unmapped one is kept. -/
theorem c9_restore_behavior_witness :
    restoreL [(mkTokenL "AB".data 0, "ok".data)]
        ("x ".data ++ mkTokenL "AB".data 0 ++ " y".data) =
      "x ".data ++ "ok".data ++ " y".data ∧
    restoreL [] ("x ".data ++ mkTokenL "AB".data 0 ++ " y".data) =
      "x ".data ++ mkTokenL "AB".data 0 ++ " y".data :=
  ⟨(c9_restore_behavior [(mkTokenL "AB".data 0, "ok".data)] "x ".data " y".data "AB".data 0
      (by decide) (by decide) (by decide) (by decide)).1 "ok".data (by decide) (by decide),
   (c9_restore_behavior [] "x ".data " y".data "AB".data 0
      (by decide) (by decide) (by decide) (by decide)).2 (by decide)⟩

lemma lowAscii_lbrack : lowAscii '[' = '[' := by decide

lemma noStartCI_clean_body (pat' body ys : List Char)
    (hbody : ∀ c ∈ body, lowAscii c ≠ '[') :
    noStartCI ('[' :: pat') body ys :=
  noStartCI_chars '[' pat' body ys (fun c hc => by
    rw [lowAscii_lbrack]
    exact fun he => hbody c hc he.symm)

lemma startsWithCI_self (pat : List Char) : startsWithCI pat pat = true := by
  have := startsWithCI_refl_append pat []
  simpa using this

lemma findSubCI_close_tag (pat body : List Char) (hpat : pat ≠ [])
    (hhead : pat.head? = some '[')
    (hbody : ∀ c ∈ body, lowAscii c ≠ '[') :
    findSubCI pat (body ++ pat) = some body.length := by
  cases pat with
  | nil => exact absurd rfl hpat
  | cons p ps =>
    have hp : p = '[' := by simpa using hhead
    subst hp
    exact findSubCI_boundary _ _ _ (by simp)
      (noStartCI_clean_body ps body _ hbody) (startsWithCI_self _)

lemma thingM_whole (id body : List Char) (hid : id ≠ [])
    (hid2 : ∀ c ∈ id, c.isDigit = true)
    (hbody : ∀ c ∈ body, lowAscii c ≠ '[') (p : Option Char) :
    thingM p ("[thing=".data ++ (id ++ ']' :: (body ++ "[/thing]".data))) =
      some (("[thing=".data ++ (id ++ ']' :: (body ++ "[/thing]".data))).length,
        '[' :: (body ++ ("](https://boardgamegeek.com/thing/".data ++ (id ++ ")".data)))) := by
  have h1 : startsWithCI "[thing=".data
      ("[thing=".data ++ (id ++ ']' :: (body ++ "[/thing]".data))) = true :=
    startsWithCI_refl_append _ _
  have h2 : ("[thing=".data ++ (id ++ ']' :: (body ++ "[/thing]".data))).drop 7 =
      id ++ ']' :: (body ++ "[/thing]".data) := List.drop_left' (by decide)
  have h3 : (id ++ ']' :: (body ++ "[/thing]".data)).takeWhile Char.isDigit = id :=
    takeWhile_append_stop _ id ']' _ hid2 (by decide)
  have h4 : (id ++ ']' :: (body ++ "[/thing]".data)).drop id.length =
      ']' :: (body ++ "[/thing]".data) := List.drop_left' rfl
  have h5 : startsWithL "]".data (']' :: (body ++ "[/thing]".data)) = true := by
    simp [startsWithL]
  have h6 : (id ++ ']' :: (body ++ "[/thing]".data)).drop (id.length + 1) =
      body ++ "[/thing]".data := by
    have hsh : id ++ ']' :: (body ++ "[/thing]".data) =
        (id ++ [']']) ++ (body ++ "[/thing]".data) := by simp
    rw [hsh]
    exact List.drop_left' (by simp)
  have h7 : findSubCI "[/thing]".data (body ++ "[/thing]".data) = some body.length :=
    findSubCI_close_tag _ body (by decide) (by decide) hbody
  have h8 : (body ++ "[/thing]".data).take body.length = body := List.take_left body _
  have hlen : ("[thing=".data ++ (id ++ ']' :: (body ++ "[/thing]".data))).length =
      7 + id.length + 1 + body.length + 8 := by
    simp [List.length_append]
    omega
  rw [thingM.eq_def]
  simp only [h1, if_true, h2, h3, h4, h5, h6, h7, h8, hid, hlen]
  simp [hid]

lemma userM_whole (id body : List Char) (hid : id ≠ [])
    (hid2 : ∀ c ∈ id, c.isDigit = true)
    (hbody : ∀ c ∈ body, lowAscii c ≠ '[') (p : Option Char) :
    userM p ("[user=".data ++ (id ++ ']' :: (body ++ "[/user]".data))) =
      some (("[user=".data ++ (id ++ ']' :: (body ++ "[/user]".data))).length,
        "[@".data ++ (body ++ ("](https://boardgamegeek.com/user/".data ++ (body ++ ")".data)))) := by
  have h1 : startsWithCI "[user=".data
      ("[user=".data ++ (id ++ ']' :: (body ++ "[/user]".data))) = true :=
    startsWithCI_refl_append _ _
  have h2 : ("[user=".data ++ (id ++ ']' :: (body ++ "[/user]".data))).drop 6 =
      id ++ ']' :: (body ++ "[/user]".data) := List.drop_left' (by decide)
  have h3 : (id ++ ']' :: (body ++ "[/user]".data)).takeWhile Char.isDigit = id :=
    takeWhile_append_stop _ id ']' _ hid2 (by decide)
  have h4 : (id ++ ']' :: (body ++ "[/user]".data)).drop id.length =
      ']' :: (body ++ "[/user]".data) := List.drop_left' rfl
  have h5 : startsWithL "]".data (']' :: (body ++ "[/user]".data)) = true := by
    simp [startsWithL]
  have h6 : (id ++ ']' :: (body ++ "[/user]".data)).drop (id.length + 1) =
      body ++ "[/user]".data := by
    have hsh : id ++ ']' :: (body ++ "[/user]".data) =
        (id ++ [']']) ++ (body ++ "[/user]".data) := by simp
    rw [hsh]
    exact List.drop_left' (by simp)
  have h7 : findSubCI "[/user]".data (body ++ "[/user]".data) = some body.length :=
    findSubCI_close_tag _ body (by decide) (by decide) hbody
  have h8 : (body ++ "[/user]".data).take body.length = body := List.take_left body _
  have hlen : ("[user=".data ++ (id ++ ']' :: (body ++ "[/user]".data))).length =
      6 + id.length + 1 + body.length + 7 := by
    simp [List.length_append]
    omega
  rw [userM.eq_def]
  simp only [h1, if_true, h2, h3, h4, h5, h6, h7, h8, hid, hlen]
  simp [hid]

/-- C4 (amended): every entity-reference tag becomes a link into the
canonical web address built from the referenced numeric id or username; the
visible text of a `[thing]` link is the tag body, and the visible text of a
`[user]` link is `"@"` followed by the tag body (the address is built from
the body). -/
theorem c4_entity_reference_links (id body ubody : List Char)
    (hid : id ≠ []) (hid2 : ∀ c ∈ id, c.isDigit = true)
    (hbody : ∀ c ∈ body, lowAscii c ≠ '[')
    (hubody : ∀ c ∈ ubody, lowAscii c ≠ '[') :
    thingPassL ("[thing=".data ++ (id ++ ']' :: (body ++ "[/thing]".data))) =
      '[' :: (body ++ ("](https://boardgamegeek.com/thing/".data ++ (id ++ ")".data))) ∧
    userPassL ("[user=".data ++ (id ++ ']' :: (ubody ++ "[/user]".data))) =
      "[@".data ++ (ubody ++ ("](https://boardgamegeek.com/user/".data ++ (ubody ++ ")".data))) ∧
    bggToMarkdown "[thing=13]Catan[/thing]" = "[Catan](https://boardgamegeek.com/thing/13)" ∧
    bggToMarkdown "[user=7]bob[/user]" = "[@bob](https://boardgamegeek.com/user/bob)" := by
  refine ⟨?_, ?_, by decide, by decide⟩
  · exact runPass_whole _ _ _ (by simp)
      (thingM_whole id body hid hid2 hbody) (fun p => rfl)
  · exact runPass_whole _ _ _ (by simp)
      (userM_whole id ubody hid hid2 hubody) (fun p => rfl)

/-- Witness for C4 at `id = "13"`, bodies `"Catan"`/`"bob"`. -/
theorem c4_entity_reference_links_witness :
    thingPassL ("[thing=".data ++ ("13".data ++ ']' :: ("Catan".data ++ "[/thing]".data))) =
      '[' :: ("Catan".data ++ ("](https://boardgamegeek.com/thing/".data ++ ("13".data ++ ")".data))) ∧
    userPassL ("[user=".data ++ ("13".data ++ ']' :: ("bob".data ++ "[/user]".data))) =
      "[@".data ++ ("bob".data ++ ("](https://boardgamegeek.com/user/".data ++ ("bob".data ++ ")".data))) :=
  ⟨(c4_entity_reference_links "13".data "Catan".data "bob".data
      (by decide) (by decide) (by decide) (by decide)).1,
   (c4_entity_reference_links "13".data "Catan".data "bob".data
      (by decide) (by decide) (by decide) (by decide)).2.1⟩

lemma sizeM_whole (sz body : List Char) (hsz : sz ≠ [])
    (hsz2 : ∀ c ∈ sz, c.isDigit = true) (hsz3 : sz.length ≤ 3)
    (hbody : ∀ c ∈ body, lowAscii c ≠ '[') (p : Option Char) :
    sizeM p ("[size=".data ++ (sz ++ ']' :: (body ++ "[/size]".data))) =
      some (("[size=".data ++ (sz ++ ']' :: (body ++ "[/size]".data))).length,
        sizeRep sz body) := by
  have h1 : startsWithCI "[size=".data
      ("[size=".data ++ (sz ++ ']' :: (body ++ "[/size]".data))) = true :=
    startsWithCI_refl_append _ _
  have h2 : ("[size=".data ++ (sz ++ ']' :: (body ++ "[/size]".data))).drop 6 =
      sz ++ ']' :: (body ++ "[/size]".data) := List.drop_left' (by decide)
  have h3 : (sz ++ ']' :: (body ++ "[/size]".data)).takeWhile Char.isDigit = sz :=
    takeWhile_append_stop _ sz ']' _ hsz2 (by decide)
  have h4 : (sz ++ ']' :: (body ++ "[/size]".data)).drop sz.length =
      ']' :: (body ++ "[/size]".data) := List.drop_left' rfl
  have h5 : startsWithL "]".data (']' :: (body ++ "[/size]".data)) = true := by
    simp [startsWithL]
  have h6 : (sz ++ ']' :: (body ++ "[/size]".data)).drop (sz.length + 1) =
      body ++ "[/size]".data := by
    have hsh : sz ++ ']' :: (body ++ "[/size]".data) =
        (sz ++ [']']) ++ (body ++ "[/size]".data) := by simp
    rw [hsh]
    exact List.drop_left' (by simp)
  have h7 : findSubCI "[/size]".data (body ++ "[/size]".data) = some body.length :=
    findSubCI_close_tag _ body (by decide) (by decide) hbody
  have h8 : (body ++ "[/size]".data).take body.length = body := List.take_left body _
  have hlen : ("[size=".data ++ (sz ++ ']' :: (body ++ "[/size]".data))).length =
      6 + sz.length + 1 + body.length + 7 := by
    simp [List.length_append]
    omega
  rw [sizeM.eq_def]
  simp only [h1, if_true, h2, h3, h4, h5, h6, h7, h8, hlen]
  simp [hsz, hsz3]

lemma sizePass_whole (sz body : List Char) (hsz : sz ≠ [])
    (hsz2 : ∀ c ∈ sz, c.isDigit = true) (hsz3 : sz.length ≤ 3)
    (hbody : ∀ c ∈ body, lowAscii c ≠ '[') :
    sizePassL ("[size=".data ++ (sz ++ ']' :: (body ++ "[/size]".data))) =
      sizeRep sz body :=
  runPass_whole _ _ _ (by simp)
    (sizeM_whole sz body hsz hsz2 hsz3 hbody) (fun p => rfl)

/-- C5 (amended): a size tag with a heading mapping whose trimmed inner text
is single-line and at most 120 characters becomes a heading line followed by a
blank line; otherwise the *trimmed* inner text is emitted with the tags
stripped.  In particular `bggToMarkdown "[size=24]Title[/size]" = "\n# Title\n\n"`. -/
theorem c5_size_tag_heading (inner : List Char)
    (hinner : ∀ c ∈ inner, lowAscii c ≠ '[') :
    (sizePassL ("[size=".data ++ ("5".data ++ ']' :: (inner ++ "[/size]".data))) =
      trimL inner) ∧
    (headingTextOk (trimL inner) = true →
      sizePassL ("[size=".data ++ ("24".data ++ ']' :: (inner ++ "[/size]".data))) =
        '\n' :: "#".data ++ ' ' :: trimL inner ++ "\n\n".data) ∧
    (headingTextOk (trimL inner) = false →
      sizePassL ("[size=".data ++ ("24".data ++ ']' :: (inner ++ "[/size]".data))) =
        trimL inner) ∧
    bggToMarkdown "[size=24]Title[/size]" = "\n# Title\n\n" := by
  have h5 := sizePass_whole "5".data inner (by decide) (by decide) (by decide) hinner
  have h24 := sizePass_whole "24".data inner (by decide) (by decide) (by decide) hinner
  have hs5 : sizeToHeadingL "5".data = none := rfl
  have hs24 : sizeToHeadingL "24".data = some "#".data := rfl
  refine ⟨?_, ?_, ?_, by decide⟩
  · rw [h5]
    simp [sizeRep, hs5]
  · intro hok
    rw [h24]
    simp [sizeRep, hs24, hok]
  · intro hok
    rw [h24]
    simp [sizeRep, hs24, hok]

/-- Witness for C5: a multi-line inner text falls back to trimmed output. -/
theorem c5_size_tag_heading_witness :
    sizePassL ("[size=".data ++ ("5".data ++ ']' :: (" x ".data ++ "[/size]".data))) =
      trimL " x ".data ∧
    sizePassL ("[size=".data ++ ("24".data ++ ']' :: ("Hi".data ++ "[/size]".data))) =
      '\n' :: "#".data ++ ' ' :: trimL "Hi".data ++ "\n\n".data :=
  ⟨(c5_size_tag_heading " x ".data (by decide)).1,
   (c5_size_tag_heading "Hi".data (by decide)).2.1 (by decide)⟩

lemma ne_lbrack_of_low (c : Char) (h : lowAscii c ≠ '[') : c ≠ '[' := fun he =>
  h (by rw [he]; exact lowAscii_lbrack)

lemma dropWhile_eq_self_head (p : Char → Bool) (c : Char) (cs : List Char)
    (h : (c :: cs).dropWhile p = c :: cs) : p c = false := by
  by_contra hw
  simp only [Bool.not_eq_false] at hw
  rw [List.dropWhile_cons, if_pos hw] at h
  have hle : (cs.dropWhile p).length ≤ cs.length := (List.dropWhile_suffix p).length_le
  rw [h] at hle
  simp at hle

lemma trim_eq_self_parts (cs : List Char) (h : trimL cs = cs) :
    cs.dropWhile isWsB = cs ∧ cs.reverse.dropWhile isWsB = cs.reverse := by
  have h1 : ((cs.dropWhile isWsB).reverse.dropWhile isWsB).length ≤
      (cs.dropWhile isWsB).length := by
    have := (List.dropWhile_suffix (l := (cs.dropWhile isWsB).reverse) isWsB).length_le
    simpa using this
  have h2 : (cs.dropWhile isWsB).length ≤ cs.length :=
    (List.dropWhile_suffix isWsB).length_le
  have hlen : (trimL cs).length = cs.length := by rw [h]
  have hlen2 : ((cs.dropWhile isWsB).reverse.dropWhile isWsB).length = cs.length := by
    simpa [trimL] using hlen
  have hu : cs.dropWhile isWsB = cs :=
    (List.dropWhile_suffix isWsB).eq_of_length (by omega)
  refine ⟨hu, ?_⟩
  have hv : cs.reverse.dropWhile isWsB = cs.reverse := by
    have hsuf := List.dropWhile_suffix (l := cs.reverse) isWsB
    refine hsuf.eq_of_length ?_
    rw [hu] at hlen2
    simpa using hlen2
  exact hv

lemma trimL_append_nl (it : List Char) (hne : it ≠ []) (htr : trimL it = it) :
    trimL (it ++ ['\n']) = it := by
  obtain ⟨hfront, hback⟩ := trim_eq_self_parts it htr
  cases hit : it with
  | nil => exact absurd hit hne
  | cons c it' =>
    have hc : isWsB c = false := dropWhile_eq_self_head _ _ _ (hit ▸ hfront)
    have e1 : ((c :: it') ++ ['\n']).dropWhile isWsB = (c :: it') ++ ['\n'] := by
      rw [List.cons_append, List.dropWhile_cons, if_neg (by simp [hc])]
    have e2 : ((c :: it') ++ ['\n']).reverse = '\n' :: (c :: it').reverse := by
      simp
    have e3 : ('\n' :: (c :: it').reverse).dropWhile isWsB = (c :: it').reverse := by
      rw [List.dropWhile_cons, if_pos (by decide)]
      exact hit ▸ hback
    rw [← hit]
    rw [hit]
    simp only [trimL, e1, e2, e3]
    simp

lemma wsRun_cons_false (c : Char) (cs : List Char) (hc : isWsB c = false) :
    wsRun (c :: cs) = 0 := by
  simp [wsRun, List.takeWhile_cons, hc]

lemma markerLen_none (c : Char) (cs : List Char) (h1 : c ≠ '\n') (h2 : c ≠ '[') :
    markerLen (c :: cs) = none := by
  have hs1 : startsWithL "\n[*]".data (c :: cs) = false := by
    simp [startsWithL, Ne.symm h1]
  have hs2 : startsWithL "[*]".data (c :: cs) = false := by
    simp [startsWithL, Ne.symm h2]
  simp [markerLen, hs1, hs2]

lemma splitMarkerGo_chunk (it : List Char) (hit : ∀ c ∈ it, c ≠ '\n' ∧ c ≠ '[') :
    ∀ (fuel : Nat) (acc rest : List Char),
      splitMarkerGo (it.length + fuel) acc (it ++ rest) =
        splitMarkerGo fuel (it.reverse ++ acc) rest := by
  induction it with
  | nil => intro fuel acc rest; simp
  | cons c it' ih =>
    intro fuel acc rest
    have hc := hit c (by simp)
    have hml : markerLen (c :: (it' ++ rest)) = none := markerLen_none c _ hc.1 hc.2
    have he : (c :: it').length + fuel = (it'.length + fuel) + 1 := by simp; omega
    rw [he, List.cons_append]
    simp only [splitMarkerGo, hml]
    rw [ih (fun x hx => hit x (by simp [hx])) fuel (c :: acc) rest]
    simp

lemma itemOk_head_not_ws (c : Char) (it' : List Char) (h : itemOkP (c :: it')) :
    isWsB c = false :=
  dropWhile_eq_self_head _ _ _ (trim_eq_self_parts _ h.2.1).1

lemma listBodyOf_cons_expand (it : List Char) (rest : List (List Char)) :
    listBodyOf (it :: rest) = '\n' :: '[' :: '*' :: ']' :: ' ' :: (it ++ listBodyOf rest) := rfl

lemma markerLen_at_item (c : Char) (it' z : List Char)
    (hc : isWsB c = false) :
    markerLen ('\n' :: '[' :: '*' :: ']' :: ' ' :: c :: (it' ++ z)) = some 5 := by
  have hs1 : startsWithL "\n[*]".data
      ('\n' :: '[' :: '*' :: ']' :: ' ' :: c :: (it' ++ z)) = true := by
    simp [startsWithL]
  have hsp : isWsB ' ' = true := by decide
  have hws : wsRun (' ' :: c :: (it' ++ z)) = 1 := by
    simp [wsRun, List.takeWhile_cons, hsp, hc]
  have hdrop : ('\n' :: '[' :: '*' :: ']' :: ' ' :: c :: (it' ++ z)).drop 4 =
      ' ' :: c :: (it' ++ z) := rfl
  simp only [markerLen, hs1, if_true, hdrop, hws]

lemma splitMarkerGo_cons_marker (fuel l : Nat) (acc : List Char) (c : Char)
    (rest : List Char) (h : markerLen (c :: rest) = some l) :
    splitMarkerGo (fuel + 1) acc (c :: rest) =
      acc.reverse :: splitMarkerGo fuel [] ((c :: rest).drop l) := by
  simp only [splitMarkerGo, h]

lemma splitMarkerGo_body (items : List (List Char)) :
    ∀ (_ : ∀ it ∈ items, itemOkP it) (fuel : Nat) (acc : List Char),
      splitMarkerGo ((listBodyOf items).length + fuel + 1) acc (listBodyOf items) =
        smPieces acc items := by
  induction items with
  | nil =>
    intro _ fuel acc
    have hml : markerLen ['\n'] = none := by decide
    have he : (listBodyOf ([] : List (List Char))).length + fuel + 1 = (fuel + 1) + 1 := by
      simp [listBodyOf]; omega
    rw [he]
    show splitMarkerGo ((fuel + 1) + 1) acc ['\n'] = smPieces acc []
    simp only [splitMarkerGo, hml, smPieces]
    simp
  | cons it rest ih =>
    intro h fuel acc
    have hok := h it (by simp)
    obtain ⟨c, it', rfl⟩ : ∃ c it', it = c :: it' := by
      cases it with
      | nil => exact absurd rfl hok.1
      | cons c it' => exact ⟨c, it', rfl⟩
    have hc : isWsB c = false := itemOk_head_not_ws c it' hok
    have hml := markerLen_at_item c it' (listBodyOf rest) hc
    have hexp : listBodyOf ((c :: it') :: rest) =
        '\n' :: '[' :: '*' :: ']' :: ' ' :: c :: (it' ++ listBodyOf rest) := rfl
    have hlen : (listBodyOf ((c :: it') :: rest)).length =
        5 + (c :: it').length + (listBodyOf rest).length := by
      rw [hexp]; simp; omega
    have he : (listBodyOf ((c :: it') :: rest)).length + fuel + 1 =
        ((c :: it').length + ((listBodyOf rest).length + (fuel + 4) + 1)) + 1 := by
      rw [hlen]; simp; omega
    rw [he, hexp]
    have hml' : markerLen ('\n' :: ('[' :: '*' :: ']' :: ' ' :: c :: (it' ++ listBodyOf rest))) =
        some 5 := hml
    rw [splitMarkerGo_cons_marker _ 5 acc _ _ hml']
    have hdrop5 : (('\n' : Char) :: ('[' :: '*' :: ']' :: ' ' :: c :: (it' ++ listBodyOf rest))).drop 5 =
        c :: (it' ++ listBodyOf rest) := rfl
    rw [hdrop5]
    have hchars : ∀ x ∈ (c :: it'), x ≠ '\n' ∧ x ≠ '[' := fun x hx =>
      ⟨(hok.2.2 x hx).1, ne_lbrack_of_low x (hok.2.2 x hx).2⟩
    have hchunk := splitMarkerGo_chunk (c :: it') hchars
      ((listBodyOf rest).length + (fuel + 4) + 1) [] (listBodyOf rest)
    rw [List.cons_append] at hchunk
    rw [hchunk]
    rw [ih (fun x hx => h x (by simp [hx])) (fuel + 4) ((c :: it').reverse ++ [])]
    simp [smPieces]

lemma splitMarker_body (items : List (List Char)) (h : ∀ it ∈ items, itemOkP it) :
    splitMarker (listBodyOf items) = smPieces [] items := by
  have := splitMarkerGo_body items h 0 []
  simpa [splitMarker] using this

lemma stripStrayGo_id : ∀ (fuel : Nat) (cs : List Char), (∀ c ∈ cs, c ≠ '[') →
    stripStrayGo fuel cs = cs := by
  intro fuel
  induction fuel with
  | zero => intro cs _; rfl
  | succ f ih =>
    intro cs h
    cases cs with
    | nil => rfl
    | cons c rest =>
      have hc : c ≠ '[' := h c (by simp)
      simp only [stripStrayGo, if_neg hc]
      rw [ih rest (fun x hx => h x (by simp [hx]))]

lemma stripStray_id (cs : List Char) (h : ∀ c ∈ cs, c ≠ '[') : stripStray cs = cs :=
  stripStrayGo_id _ cs h

lemma listItems_pieces :
    ∀ (items : List (List Char)), (∀ it ∈ items, itemOkP it) →
    ∀ (prev : List Char), itemOkP prev →
      ((smPieces prev.reverse items).map trimL).filter (fun l => !l.isEmpty) =
        prev :: items := by
  intro items
  induction items with
  | nil =>
    intro _ prev hprev
    have ht : trimL (prev ++ ['\n']) = prev := trimL_append_nl prev hprev.1 hprev.2.1
    simp [smPieces, ht, hprev.1]
  | cons it rest ih =>
    intro h prev hprev
    have hit : itemOkP it := h it (by simp)
    have htail := ih (fun x hx => h x (by simp [hx])) it hit
    simp only [smPieces, List.map_cons, List.filter_cons, List.reverse_reverse]
    rw [hprev.2.1]
    have : (!prev.isEmpty) = true := by
      cases prev with
      | nil => exact absurd rfl hprev.1
      | cons a b => rfl
    simp [this, htail]

lemma listItems_body (items : List (List Char)) (h : ∀ it ∈ items, itemOkP it) :
    listItems (listBodyOf items) = items := by
  unfold listItems
  rw [splitMarker_body items h]
  cases items with
  | nil => simp [smPieces]; decide
  | cons it rest =>
    have hit : itemOkP it := h it (by simp)
    have := listItems_pieces rest (fun x hx => h x (by simp [hx])) it hit
    show (((smPieces [] (it :: rest)).map trimL).filter fun l => !l.isEmpty) = it :: rest
    simp only [smPieces, List.map_cons, List.filter_cons, List.reverse_nil]
    have h0 : trimL ([] : List Char) = [] := rfl
    simp only [h0]
    simpa using this

lemma mapIdxGo_congr (f g : Nat → List Char → List Char) (items : List (List Char))
    (h : ∀ i it, it ∈ items → f i it = g i it) :
    ∀ n, mapIdxGo f n items = mapIdxGo g n items := by
  induction items with
  | nil => intro n; rfl
  | cons it rest ih =>
    intro n
    simp only [mapIdxGo]
    rw [h n it (by simp), ih (fun i x hx => h i x (by simp [hx])) (n + 1)]

lemma listBodyRender_items (items : List (List Char)) (h : ∀ it ∈ items, itemOkP it)
    (hne : items ≠ []) :
    listBodyRender (listBodyOf items) =
      '\n' :: joinNl (items.map (fun it => "- ".data ++ it)) ++ ['\n'] := by
  have hmap : items.map (fun it => "- ".data ++ trimL (stripStray it)) =
      items.map (fun it => "- ".data ++ it) := by
    apply List.map_congr_left
    intro it hit
    have hok := h it hit
    rw [stripStray_id it (fun c hc => ne_lbrack_of_low c (hok.2.2 c hc).2), hok.2.1]
  have hitems : listItems (listBodyOf items) = items := listItems_body items h
  have hemp : items.isEmpty = false := by
    cases items with
    | nil => exact absurd rfl hne
    | cons a b => rfl
  simp only [listBodyRender, hitems, hemp, Bool.false_eq_true, if_false, hmap]

lemma olistBodyRender_items (items : List (List Char)) (h : ∀ it ∈ items, itemOkP it)
    (hne : items ≠ []) :
    olistBodyRender (listBodyOf items) =
      '\n' :: joinNl (mapIdxGo
        (fun i it => natToStr (i + 1) ++ ". ".data ++ it) 0 items) ++ ['\n'] := by
  have hmap : mapIdxGo (fun i it => natToStr (i + 1) ++ ". ".data ++ trimL (stripStray it)) 0 items =
      mapIdxGo (fun i it => natToStr (i + 1) ++ ". ".data ++ it) 0 items := by
    apply mapIdxGo_congr
    intro i it hit
    have hok := h it hit
    rw [stripStray_id it (fun c hc => ne_lbrack_of_low c (hok.2.2 c hc).2), hok.2.1]
  have hitems : listItems (listBodyOf items) = items := listItems_body items h
  have hemp : items.isEmpty = false := by
    cases items with
    | nil => exact absurd rfl hne
    | cons a b => rfl
  simp only [olistBodyRender, hitems, hemp, Bool.false_eq_true, if_false, hmap]

lemma tagPairM_whole (openT closeT : List Char) (f : List Char → List Char)
    (body : List Char) (hco : closeT ≠ [])
    (hnost : noStartCI closeT body closeT) (p : Option Char) :
    tagPairM openT closeT f p (openT ++ (body ++ closeT)) =
      some ((openT ++ (body ++ closeT)).length, f body) := by
  have h1 : startsWithCI openT (openT ++ (body ++ closeT)) = true :=
    startsWithCI_refl_append _ _
  have hdrop : (openT ++ (body ++ closeT)).drop openT.length = body ++ closeT :=
    List.drop_left _ _
  have hfind : findSubCI closeT (body ++ closeT) = some body.length :=
    findSubCI_boundary closeT body closeT hco hnost (startsWithCI_self _)
  have htake : (body ++ closeT).take body.length = body := List.take_left _ _
  have hlen : (openT ++ (body ++ closeT)).length =
      openT.length + body.length + closeT.length := by
    simp [List.length_append]; omega
  rw [tagPairM.eq_def]
  simp only [h1, if_true, hdrop, hfind, htake, hlen]

lemma startsWithCI_second_false (p1 p2 : Char) (ps : List Char) (c1 c2 : Char)
    (cs : List Char) (h : lowAscii p2 ≠ lowAscii c2) :
    startsWithCI (p1 :: p2 :: ps) (c1 :: c2 :: cs) = false := by
  simp [startsWithCI, h]

lemma noStartCI_marker (ps z : List Char) :
    noStartCI ('[' :: '/' :: ps) "\n[*] ".data z := by
  intro i hi
  have h5 : ("\n[*] ".data).length = 5 := rfl
  rw [h5] at hi
  have hexp : "\n[*] ".data ++ z = '\n' :: '[' :: '*' :: ']' :: ' ' :: z := rfl
  rw [hexp]
  interval_cases i
  · exact startsWithCI_head_false _ _ _ _ (by decide)
  · have e : List.drop 1 ('\n' :: '[' :: '*' :: ']' :: ' ' :: z) =
        '[' :: '*' :: ']' :: ' ' :: z := rfl
    rw [e]
    exact startsWithCI_second_false _ _ _ _ _ _ (by decide)
  · have e : List.drop 2 ('\n' :: '[' :: '*' :: ']' :: ' ' :: z) =
        '*' :: ']' :: ' ' :: z := rfl
    rw [e]
    exact startsWithCI_head_false _ _ _ _ (by decide)
  · have e : List.drop 3 ('\n' :: '[' :: '*' :: ']' :: ' ' :: z) =
        ']' :: ' ' :: z := rfl
    rw [e]
    exact startsWithCI_head_false _ _ _ _ (by decide)
  · have e : List.drop 4 ('\n' :: '[' :: '*' :: ']' :: ' ' :: z) = ' ' :: z := rfl
    rw [e]
    exact startsWithCI_head_false _ _ _ _ (by decide)

lemma noStartCI_listBody (ps : List Char) (items : List (List Char))
    (h : ∀ it ∈ items, itemOkP it) (z : List Char) :
    noStartCI ('[' :: '/' :: ps) (listBodyOf items) z := by
  induction items with
  | nil =>
    intro i hi
    have h1 : (listBodyOf ([] : List (List Char))).length = 1 := rfl
    rw [h1] at hi
    interval_cases i
    exact startsWithCI_head_false _ _ _ _ (by decide)
  | cons it rest ih =>
    have hok := h it (by simp)
    have hsh : listBodyOf (it :: rest) = "\n[*] ".data ++ (it ++ listBodyOf rest) := by
      show "\n[*] ".data ++ it ++ listBodyOf rest = _
      simp [List.append_assoc]
    rw [hsh]
    apply noStartCI_append
    · have := noStartCI_marker ps ((it ++ listBodyOf rest) ++ z)
      intro i hi
      have hthis := this i hi
      rw [List.append_assoc] at hthis ⊢
      exact hthis
    · apply noStartCI_append
      · exact noStartCI_chars '[' _ it _ (fun c hc => by
          rw [lowAscii_lbrack]
          exact fun he => (hok.2.2 c hc).2 he.symm)
      · exact ih (fun x hx => h x (by simp [hx]))

/-- C7: a `[list]`/`[olist]` block built from well-formed items is split on
its `[*]` markers, fragments are trimmed with stray marker remnants stripped
and empty fragments discarded; unordered items become dash-prefixed lines and
ordered items sequentially numbered lines starting at 1, in original order; an
empty item set makes the whole construct disappear, and the claim's concrete
example converts as stated. -/
theorem c7_list_conversion (items : List (List Char)) (h : ∀ it ∈ items, itemOkP it)
    (hne : items ≠ []) :
    listPassL ("[list]".data ++ (listBodyOf items ++ "[/list]".data)) =
      '\n' :: joinNl (items.map (fun it => "- ".data ++ it)) ++ ['\n'] ∧
    olistPassL ("[olist]".data ++ (listBodyOf items ++ "[/olist]".data)) =
      '\n' :: joinNl (mapIdxGo
        (fun i it => natToStr (i + 1) ++ ". ".data ++ it) 0 items) ++ ['\n'] ∧
    bggToMarkdown "[list]\n[*] One\n[*] Two\n[/list]" = "\n- One\n- Two\n" ∧
    bggToMarkdown "[list][/list]" = "" ∧
    bggToMarkdown "[olist]\n[*] A\n[*] B\n[/olist]" = "\n1. A\n2. B\n" := by
  refine ⟨?_, ?_, by decide, by decide, by decide⟩
  · have hns : noStartCI "[/list]".data (listBodyOf items) "[/list]".data :=
      noStartCI_listBody "list]".data items h "[/list]".data
    have hm := fun p => tagPairM_whole "[list]".data "[/list]".data listBodyRender
      (listBodyOf items) (by decide) hns p
    have hfinal : listPassL ("[list]".data ++ (listBodyOf items ++ "[/list]".data)) =
        listBodyRender (listBodyOf items) :=
      runPass_whole _ _ _ (by simp) hm (fun p => rfl)
    rw [hfinal, listBodyRender_items items h hne]
  · have hns : noStartCI "[/olist]".data (listBodyOf items) "[/olist]".data :=
      noStartCI_listBody "olist]".data items h "[/olist]".data
    have hm := fun p => tagPairM_whole "[olist]".data "[/olist]".data olistBodyRender
      (listBodyOf items) (by decide) hns p
    have hfinal : olistPassL ("[olist]".data ++ (listBodyOf items ++ "[/olist]".data)) =
        olistBodyRender (listBodyOf items) :=
      runPass_whole _ _ _ (by simp) hm (fun p => rfl)
    rw [hfinal, olistBodyRender_items items h hne]

/-- Witness for C7 with the two items `"One"` and `"Two"`. -/
theorem c7_list_conversion_witness :
    listPassL ("[list]".data ++ (listBodyOf ["One".data, "Two".data] ++ "[/list]".data)) =
      '\n' :: joinNl (["One".data, "Two".data].map (fun it => "- ".data ++ it)) ++ ['\n'] ∧
    olistPassL ("[olist]".data ++ (listBodyOf ["One".data, "Two".data] ++ "[/olist]".data)) =
      '\n' :: joinNl (mapIdxGo (fun i it => natToStr (i + 1) ++ ". ".data ++ it) 0
        ["One".data, "Two".data]) ++ ['\n'] :=
  ⟨(c7_list_conversion ["One".data, "Two".data] (by decide) (by decide)).1,
   (c7_list_conversion ["One".data, "Two".data] (by decide) (by decide)).2.1⟩

/-- C1: the claim says protected `[code]`/fenced spans are format-translated
(BGG code tags become fenced blocks and vice versa).  In the code both
translation passes are dead: protection replaces the span with a token before
the pass runs, and restoration re-inserts the original text verbatim, so
`bggToMarkdown` returns a `[code]` input unchanged; in `markdownToBgg` the
underscore-italics pass even mangles the placeholder token itself. -/
theorem c1_code_translation_dead :
    bggToMarkdown "[code]\nfoo\n[/code]" = "[code]\nfoo\n[/code]" ∧
    markdownToBgg "```\nbar\n```" = "__PROTECTED[i]CODE[/i]FENCE[i]0_[/i]" := by
  constructor <;> decide

/-- C2: an image with non-empty alt text is intercepted by the earlier link
pass (`[alt](url)` matches inside `![alt](url)`), so no `[img]` tag is
produced; only the empty-alt form reaches the image pass. -/
theorem c2_image_alt_intercepted :
    markdownToBgg "![alt](https://a.com/i.png)" = "![url=https://a.com/i.png]alt[/url]" ∧
    markdownToBgg "![](https://a.com/i.png)" = "[img]https://a.com/i.png[/img]" := by
  constructor <;> decide

/-- C3: the protected fenced body does not appear byte-for-byte in the output
of `markdownToBgg`: the underscore-italics pass rewrites the placeholder token
`__PROTECTED_CODE_FENCE_0__` so restoration never finds it and the body is
lost.  In the BGG direction the body does survive (inside the restored
original `[code]` tags). -/
theorem c3_protection_invariant_broken :
    markdownToBgg "```\n*x*\n```" = "__PROTECTED[i]CODE[/i]FENCE[i]0_[/i]" ∧
    containsSubL "*x*".data (markdownToBggL "```\n*x*\n```".data) = false ∧
    bggToMarkdown "[code]\n*x*\n[/code]" = "[code]\n*x*\n[/code]" := by
  refine ⟨by decide, by decide, by decide⟩

/-- C4 counterexample: the visible text of a converted `[user]` tag is not the
tag body — the code prefixes `"@"` to it. -/
theorem c4_user_visible_text_counterexample :
    bggToMarkdown "[user=1]alice[/user]" = "[@alice](https://boardgamegeek.com/user/alice)" ∧
    bggToMarkdown "[user=1]alice[/user]" ≠ "[alice](https://boardgamegeek.com/user/alice)" := by
  constructor <;> decide

/-- C5 counterexample: in the fallback branch (size with no heading mapping)
the inner text is emitted trimmed, not unchanged. -/
theorem c5_fallback_trims_counterexample :
    bggToMarkdown "[size=5] x [/size]" = "x" ∧
    bggToMarkdown "[size=5] x [/size]" ≠ " x " := by
  constructor <;> decide

/-- C6: size/heading round trip — for every heading depth `d` from 1 to 6,
`headingToSize` of `d` hashes followed by `sizeToHeading` lands back exactly
on `d` hashes. -/
theorem c6_size_heading_roundtrip (d : Nat) (h1 : 1 ≤ d) (h2 : d ≤ 6) :
    sizeToHeadingL (natToStr (headingToSizeL (List.replicate d '#'))) =
      some (List.replicate d '#') := by
  interval_cases d <;> decide

/-- Witness for C6 at depth 3. -/
theorem c6_size_heading_roundtrip_witness :
    1 ≤ 3 ∧ 3 ≤ 6 ∧
      sizeToHeadingL (natToStr (headingToSizeL (List.replicate 3 '#'))) =
        some (List.replicate 3 '#') :=
  ⟨by decide, by decide, c6_size_heading_roundtrip 3 (by decide) (by decide)⟩

/-- C8: reverse example — bold becomes a `[b]` pair and a link to the
canonical thing address becomes a numeric `[thing]` reference. -/
theorem c8_reverse_example :
    markdownToBgg "**Bold** and [link](https://boardgamegeek.com/thing/13)" =
      "[b]Bold[/b] and [thing=13]link[/thing]" := by
  decide

/-- C10: `convert` dispatches to `bggToMarkdown` exactly for the single
recognized forward discriminator `"bgg2md"`; every other direction value falls
back to `markdownToBgg`. -/
theorem c10_dispatch (input direction : String) :
    (direction = "bgg2md" → convert input direction = bggToMarkdown input) ∧
    (direction ≠ "bgg2md" → convert input direction = markdownToBgg input) := by
  refine ⟨fun h => ?_, fun h => ?_⟩ <;> simp [convert, h]

/-- Witness for C10 with an unrecognized direction value. -/
theorem c10_dispatch_witness :
    ("md2bgg" : String) ≠ "bgg2md" ∧ convert "x" "md2bgg" = markdownToBgg "x" :=
  ⟨by decide, (c10_dispatch "x" "md2bgg").2 (by decide)⟩

end BggMd
